import Mathlib

/-!
Verification of the speech keyword-spotting pipeline
(`src/speech-model`: `preprocessing.py`, `train.py`, `predict.py`, `api.py`)
against its natural-language specification.

Waveform samples and accuracies are modelled as rationals; Python's `int()`
is truncation toward zero; Python dicts built from comprehensions with
distinct keys are modelled as association lists with first-match lookup.
-/

/-- Python's `int()` applied to a rational: truncation toward zero. -/
def pyTrunc (q : ℚ) : ℤ := if q < 0 then ⌈q⌉ else ⌊q⌋

/-- Configuration of `AudioPreprocessor.__init__` (preprocessing.py, lines 14-37). -/
structure AudioPreprocessor where
  sample_rate : ℕ
  n_mels : ℕ
  n_fft : ℕ
  hop_length : ℕ
  duration : ℚ
deriving DecidableEq

/-- `self.n_samples = int(sample_rate * duration)` (preprocessing.py, line 37). -/
def AudioPreprocessor.n_samples (p : AudioPreprocessor) : ℕ :=
  (pyTrunc ((p.sample_rate : ℚ) * p.duration)).toNat

/-- The default configuration (preprocessing.py, lines 16-20). -/
def defaultPreprocessor : AudioPreprocessor :=
  { sample_rate := 16000, n_mels := 40, n_fft := 480, hop_length := 160, duration := 1 }

/-- `np.max(np.abs(audio))` over the waveform, 0 on the empty waveform. -/
def maxAbs (audio : List ℚ) : ℚ := (audio.map (fun x => |x|)).foldl max 0

/-- `load_audio` (preprocessing.py, lines 39-55): amplitude normalization
`audio / (np.max(np.abs(audio)) + 1e-8)`; resampling is delegated to librosa
and does not change the normalization step modelled here. -/
def load_audio (audio : List ℚ) : List ℚ :=
  audio.map (fun x => x / (maxAbs audio + 1 / 100000000))

/-- `pad_or_truncate` (preprocessing.py, lines 57-76): crop `n_samples` samples
starting at `(len - n_samples) // 2` when too long, zero-pad with
`(pad_width // 2, pad_width - pad_width // 2)` when too short. -/
def AudioPreprocessor.pad_or_truncate (p : AudioPreprocessor) (audio : List ℚ) : List ℚ :=
  if p.n_samples < audio.length then
    (audio.drop ((audio.length - p.n_samples) / 2)).take p.n_samples
  else if audio.length < p.n_samples then
    List.replicate ((p.n_samples - audio.length) / 2) 0 ++ audio ++
      List.replicate ((p.n_samples - audio.length) - (p.n_samples - audio.length) / 2) 0
  else audio

/-- Modelled from the spec: `compute_mel_spectrogram` (preprocessing.py, lines
78-105) delegates the numeric content of each spectrogram cell to librosa
(`melspectrogram`, `power_to_db`, min-max scaling), which is outside this
repository.  The spec fixes the frame count by the underlying STFT framing
rule: `time_steps = 1 + len(audio) / hop_length` (integer arithmetic, centered
framing with the even FFT window `n_fft`).  The per-cell numerics are
abstracted as the parameter `cell`, so every theorem below holds for any
numeric kernel. -/
def AudioPreprocessor.compute_mel_spectrogram (p : AudioPreprocessor)
    (cell : ℕ → ℕ → List ℚ → ℚ) (audio : List ℚ) : List (List ℚ) :=
  (List.range p.n_mels).map fun m =>
    (List.range (1 + audio.length / p.hop_length)).map fun t => cell m t audio

/-- `preprocess` (preprocessing.py, lines 107-126): load → pad/truncate →
mel spectrogram. -/
def AudioPreprocessor.preprocess (p : AudioPreprocessor)
    (cell : ℕ → ℕ → List ℚ → ℚ) (audio : List ℚ) : List (List ℚ) :=
  p.compute_mel_spectrogram cell (p.pad_or_truncate (load_audio audio))

theorem length_load_audio (audio : List ℚ) : (load_audio audio).length = audio.length := by
  simp [load_audio]

theorem length_pad_or_truncate (p : AudioPreprocessor) (audio : List ℚ) :
    (p.pad_or_truncate audio).length = p.n_samples := by
  unfold AudioPreprocessor.pad_or_truncate
  split
  · rename_i h
    simp only [List.length_take, List.length_drop]
    omega
  · split
    · rename_i h
      simp only [List.length_append, List.length_replicate]
      omega
    · omega

/-- C1: for every audio input, `preprocess` returns a spectrogram of constant
shape `(n_mels, time_steps)` with
`time_steps = 1 + duration * sample_rate / hop_length` (integer arithmetic,
`n_samples = int(sample_rate * duration)`), depending only on the configured
parameters and never on the length of the source audio. -/
theorem preprocess_shape_constant (p : AudioPreprocessor) (cell : ℕ → ℕ → List ℚ → ℚ)
    (audio : List ℚ) :
    (p.preprocess cell audio).map List.length =
      List.replicate p.n_mels (1 + p.n_samples / p.hop_length) := by
  unfold AudioPreprocessor.preprocess AudioPreprocessor.compute_mel_spectrogram
  rw [List.map_map]
  have h : (p.pad_or_truncate (load_audio audio)).length = p.n_samples :=
    length_pad_or_truncate p (load_audio audio)
  simp [Function.comp_def, h, List.map_const']

theorem defaultPreprocessor_n_samples : defaultPreprocessor.n_samples = 16000 := by
  norm_num [defaultPreprocessor, AudioPreprocessor.n_samples, pyTrunc]
  rfl

/-- Instance of `preprocess_shape_constant` at the default configuration:
40 mel bins and `1 + 16000 / 160 = 101` time steps, on a 3-sample waveform. -/
theorem preprocess_shape_constant_witness :
    (defaultPreprocessor.preprocess (fun _ _ _ => 0) [1, 2, 3]).map List.length =
      List.replicate 40 101 := by
  have h := preprocess_shape_constant defaultPreprocessor (fun _ _ _ => 0) [1, 2, 3]
  rw [defaultPreprocessor_n_samples] at h
  exact h

/-- C7: `pad_or_truncate` always returns exactly `n_samples` samples; a longer
input is cropped starting at `(len - n_samples) / 2`, a shorter input is
zero-padded with `pad / 2` zeros in front and `pad - pad / 2` at the back (the
extra zero of an odd deficit goes to the end), and an input already of the
right length is returned unchanged. -/
theorem pad_or_truncate_spec (p : AudioPreprocessor) (audio : List ℚ) :
    (p.pad_or_truncate audio).length = p.n_samples
    ∧ (p.n_samples < audio.length → ∀ i < p.n_samples,
        (p.pad_or_truncate audio)[i]? = audio[(audio.length - p.n_samples) / 2 + i]?)
    ∧ (audio.length < p.n_samples →
        p.pad_or_truncate audio =
          List.replicate ((p.n_samples - audio.length) / 2) 0 ++ audio ++
            List.replicate ((p.n_samples - audio.length) - (p.n_samples - audio.length) / 2) 0
        ∧ ((p.n_samples - audio.length) % 2 = 1 →
            (p.n_samples - audio.length) - (p.n_samples - audio.length) / 2 =
              (p.n_samples - audio.length) / 2 + 1))
    ∧ (audio.length = p.n_samples → p.pad_or_truncate audio = audio) := by
  refine ⟨length_pad_or_truncate p audio, ?_, ?_, ?_⟩
  · intro hlong i hi
    unfold AudioPreprocessor.pad_or_truncate
    rw [if_pos hlong, List.getElem?_take_of_lt hi, List.getElem?_drop]
  · intro hshort
    unfold AudioPreprocessor.pad_or_truncate
    rw [if_neg (by omega), if_pos hshort]
    exact ⟨rfl, by omega⟩
  · intro heq
    unfold AudioPreprocessor.pad_or_truncate
    rw [if_neg (by omega), if_neg (by omega)]

/-- A 4-sample configuration used to exercise `pad_or_truncate_spec`. -/
def smallPreprocessor : AudioPreprocessor :=
  { sample_rate := 4, n_mels := 40, n_fft := 480, hop_length := 160, duration := 1 }

theorem smallPreprocessor_n_samples : smallPreprocessor.n_samples = 4 := by
  norm_num [smallPreprocessor, AudioPreprocessor.n_samples, pyTrunc]
  rfl

/-- Instance of `pad_or_truncate_spec` with `n_samples = 4`: a 6-sample input
is cropped starting at `(6 - 4) / 2 = 1`, a 1-sample input is padded with one
zero in front and two behind, and a 4-sample input is returned unchanged. -/
theorem pad_or_truncate_spec_witness :
    (smallPreprocessor.pad_or_truncate [5, 6, 7, 8, 9, 10])[0]? = some 6
    ∧ smallPreprocessor.pad_or_truncate [7] = [0, 7, 0, 0]
    ∧ smallPreprocessor.pad_or_truncate [1, 2, 3, 4] = [1, 2, 3, 4] := by
  refine ⟨?_, ?_, ?_⟩
  · have h := (pad_or_truncate_spec smallPreprocessor [5, 6, 7, 8, 9, 10]).2.1
      (by rw [smallPreprocessor_n_samples]; norm_num) 0
      (by rw [smallPreprocessor_n_samples]; norm_num)
    rw [smallPreprocessor_n_samples] at h
    simpa using h
  · have h := (pad_or_truncate_spec smallPreprocessor [7]).2.2.1
      (by rw [smallPreprocessor_n_samples]; norm_num)
    rw [smallPreprocessor_n_samples] at h
    simpa using h.1
  · exact (pad_or_truncate_spec smallPreprocessor [1, 2, 3, 4]).2.2.2
      (by rw [smallPreprocessor_n_samples]; rfl)

/-- Python's `str()` on a natural number: the decimal digit characters,
most-significant first. -/
def natStr (n : ℕ) : String :=
  if n = 0 then "0" else String.mk (((Nat.digits 10 n).map Nat.digitChar).reverse)

theorem digitChar_injOn : ∀ a < 10, ∀ b < 10, Nat.digitChar a = Nat.digitChar b → a = b := by
  decide

theorem map_digitChar_injOn : ∀ l₁ l₂ : List ℕ, (∀ x ∈ l₁, x < 10) → (∀ x ∈ l₂, x < 10) →
    l₁.map Nat.digitChar = l₂.map Nat.digitChar → l₁ = l₂ := by
  intro l₁
  induction l₁ with
  | nil => intro l₂ _ _ h; cases l₂ <;> simp_all
  | cons a t ih =>
    intro l₂ h₁ h₂ h
    cases l₂ with
    | nil => simp_all
    | cons b t₂ =>
      simp only [List.map_cons, List.cons.injEq] at h
      have hab : a = b :=
        digitChar_injOn a (h₁ a (List.mem_cons_self a t)) b (h₂ b (List.mem_cons_self b t₂)) h.1
      have ht : t = t₂ := ih t₂ (fun x hx => h₁ x (List.mem_cons_of_mem a hx))
        (fun x hx => h₂ x (List.mem_cons_of_mem b hx)) h.2
      rw [hab, ht]

theorem natStr_ne_zero_of_pos {b : ℕ} (hb : b ≠ 0) : natStr b ≠ "0" := by
  intro h
  unfold natStr at h
  rw [if_neg hb] at h
  have hd : ((Nat.digits 10 b).map Nat.digitChar).reverse = ['0'] := by
    have := congrArg String.data h
    simpa using this
  have hd2 : (Nat.digits 10 b).map Nat.digitChar = ['0'] := by
    have := congrArg List.reverse hd
    simpa using this
  rcases hds : Nat.digits 10 b with _ | ⟨d, rest⟩
  · rw [hds] at hd2; simp at hd2
  · rw [hds] at hd2
    simp only [List.map_cons, List.cons.injEq, List.map_eq_nil_iff] at hd2
    have hdlt : d < 10 := Nat.digits_lt_base (by norm_num) (hds ▸ List.mem_cons_self d rest)
    have hd0 : d = 0 := digitChar_injOn d hdlt 0 (by norm_num) (by simpa using hd2.1)
    have : b = 0 := by
      have hof := Nat.ofDigits_digits 10 b
      rw [hds, hd0, hd2.2] at hof
      simpa [Nat.ofDigits] using hof.symm
    exact hb this

theorem natStr_injective : Function.Injective natStr := by
  intro a b h
  by_cases ha : a = 0 <;> by_cases hb : b = 0
  · rw [ha, hb]
  · have : natStr b = "0" := by rw [← h, ha]; rfl
    exact absurd this (natStr_ne_zero_of_pos hb)
  · have : natStr a = "0" := by rw [h, hb]; rfl
    exact absurd this (natStr_ne_zero_of_pos ha)
  · unfold natStr at h
    rw [if_neg ha, if_neg hb] at h
    have hdata : ((Nat.digits 10 a).map Nat.digitChar).reverse =
        ((Nat.digits 10 b).map Nat.digitChar).reverse := congrArg String.data h
    have hmap : (Nat.digits 10 a).map Nat.digitChar = (Nat.digits 10 b).map Nat.digitChar := by
      have := congrArg List.reverse hdata
      simpa using this
    have hdig : Nat.digits 10 a = Nat.digits 10 b :=
      map_digitChar_injOn _ _ (fun x hx => Nat.digits_lt_base (by norm_num) hx)
        (fun x hx => Nat.digits_lt_base (by norm_num) hx) hmap
    have := congrArg (Nat.ofDigits 10) hdig
    rwa [Nat.ofDigits_digits, Nat.ofDigits_digits] at this

/-- `sorted(self.df['label'].unique())` (train.py, line 42): the distinct
labels of the manifest in sorted order.  (`pandas.unique` keeps first
occurrences; after sorting, the occurrence order is irrelevant.) -/
def uniqueLabels (labels : List String) : List String :=
  labels.dedup.mergeSort (fun a b => decide (a ≤ b))

/-- `self.label_to_idx = {label: idx for idx, label in enumerate(unique_labels)}`
(train.py, line 43), as an association list. -/
def label_to_idx (labels : List String) : List (String × ℕ) :=
  (uniqueLabels labels).enum.map (fun p => (p.2, p.1))

/-- `self.idx_to_label = {str(idx): label for label, idx in self.label_to_idx.items()}`
(train.py, line 44): string keys to avoid PyTorch serialization issues. -/
def idx_to_label (labels : List String) : List (String × String) :=
  (label_to_idx labels).map (fun p => (natStr p.2, p.1))

/-- Dict access `label_to_idx[L]`. -/
def lookupIdx (labels : List String) (L : String) : Option ℕ :=
  (label_to_idx labels).lookup L

/-- Dict access `idx_to_label[str(i)]` (predict.py, line 89). -/
def lookupLabel (labels : List String) (i : ℕ) : Option String :=
  (idx_to_label labels).lookup (natStr i)

theorem lookup_enumFrom_label : ∀ (U : List String) (n : ℕ), U.Nodup →
    ∀ i (hi : i < U.length),
      ((U.enumFrom n).map (fun p => (p.2, p.1))).lookup (U.get ⟨i, hi⟩) = some (n + i) := by
  intro U
  induction U with
  | nil => intro n _ i hi; simp at hi
  | cons a t ih =>
    intro n hnd i hi
    cases i with
    | zero => simp [List.enumFrom, List.lookup_cons]
    | succ j =>
      have hj : j < t.length := by simpa using hi
      have hne : t.get ⟨j, hj⟩ ≠ a := by
        intro hcontra
        exact (List.nodup_cons.mp hnd).1 (hcontra ▸ List.get_mem t j hj)
      have hbeq : (t.get ⟨j, hj⟩ == a) = false := beq_eq_false_iff_ne.mpr hne
      have hrec := ih (n + 1) (List.nodup_cons.mp hnd).2 j hj
      simp only [List.enumFrom, List.map_cons, List.get_cons_succ, List.lookup_cons, hbeq,
        if_false, hrec]
      congr 1
      omega

theorem lookup_enumFrom_natStr : ∀ (U : List String) (n i : ℕ) (hi : i < U.length),
    ((U.enumFrom n).map (fun p => (natStr p.1, p.2))).lookup (natStr (n + i)) =
      some (U.get ⟨i, hi⟩) := by
  intro U
  induction U with
  | nil => intro n i hi; simp at hi
  | cons a t ih =>
    intro n i hi
    cases i with
    | zero => simp [List.enumFrom, List.lookup_cons]
    | succ j =>
      have hj : j < t.length := by simpa using hi
      have hne : natStr (n + (j + 1)) ≠ natStr n := by
        intro hcontra
        have := natStr_injective hcontra
        omega
      have hbeq : (natStr (n + (j + 1)) == natStr n) = false := beq_eq_false_iff_ne.mpr hne
      have hrec := ih (n + 1) j hj
      rw [show n + (j + 1) = (n + 1) + j by omega] at hbeq ⊢
      simp only [List.enumFrom, List.map_cons, List.lookup_cons, hbeq, if_false, hrec,
        List.get_cons_succ]

theorem nodup_uniqueLabels (labels : List String) : (uniqueLabels labels).Nodup :=
  (List.mergeSort_perm labels.dedup _).symm.nodup labels.nodup_dedup

theorem label_to_idx_eq (labels : List String) :
    label_to_idx labels = ((uniqueLabels labels).enumFrom 0).map (fun p => (p.2, p.1)) := rfl

theorem idx_to_label_eq (labels : List String) :
    idx_to_label labels =
      ((uniqueLabels labels).enumFrom 0).map (fun p => (natStr p.1, p.2)) := by
  unfold idx_to_label label_to_idx List.enum
  rw [List.map_map]
  rfl

/-- C4: the dataset's label map is a bijection between the manifest's distinct
word labels and the contiguous indices `0..K-1` assigned in sorted label
order, and it round-trips: for every label `L` of the manifest,
`idx_to_label[str(label_to_idx[L])] == L`. -/
theorem label_map_bijection (labels : List String) :
    (uniqueLabels labels).Nodup
    ∧ (uniqueLabels labels).Pairwise (fun a b => a ≤ b)
    ∧ (∀ L, L ∈ uniqueLabels labels ↔ L ∈ labels)
    ∧ (∀ i (hi : i < (uniqueLabels labels).length),
        lookupIdx labels ((uniqueLabels labels).get ⟨i, hi⟩) = some i
        ∧ lookupLabel labels i = some ((uniqueLabels labels).get ⟨i, hi⟩))
    ∧ (∀ L ∈ labels, ∃ i, i < (uniqueLabels labels).length
        ∧ lookupIdx labels L = some i ∧ lookupLabel labels i = some L) := by
  have hnd : (uniqueLabels labels).Nodup := nodup_uniqueLabels labels
  have hlook : ∀ i (hi : i < (uniqueLabels labels).length),
      lookupIdx labels ((uniqueLabels labels).get ⟨i, hi⟩) = some i
      ∧ lookupLabel labels i = some ((uniqueLabels labels).get ⟨i, hi⟩) := by
    intro i hi
    constructor
    · have h := lookup_enumFrom_label (uniqueLabels labels) 0 hnd i hi
      rw [Nat.zero_add] at h
      rw [lookupIdx, label_to_idx_eq]
      exact h
    · have h := lookup_enumFrom_natStr (uniqueLabels labels) 0 i hi
      rw [Nat.zero_add] at h
      rw [lookupLabel, idx_to_label_eq]
      exact h
  refine ⟨hnd, ?_, ?_, hlook, ?_⟩
  · have hsorted := @List.sorted_mergeSort String (fun a b : String => decide (a ≤ b))
      (fun a b c hab hbc => by
        simp only [decide_eq_true_eq] at *
        exact le_trans hab hbc)
      (fun a b => by simpa [Bool.or_eq_true, decide_eq_true_eq] using le_total a b)
      labels.dedup
    exact hsorted.imp (fun h => of_decide_eq_true h)
  · intro L
    simp [uniqueLabels, List.mem_mergeSort, List.mem_dedup]
  · intro L hL
    have hLU : L ∈ uniqueLabels labels := by
      simp [uniqueLabels, List.mem_mergeSort, List.mem_dedup, hL]
    obtain ⟨⟨i, hi⟩, hget⟩ := List.mem_iff_get.mp hLU
    exact ⟨i, hi, by rw [← hget]; exact (hlook i hi).1, by rw [← hget]; exact (hlook i hi).2⟩

/-- Instance of `label_map_bijection` on the manifest labels
`["B", "A", "B"]`: the label `"A"` is assigned a contiguous index that maps
back to `"A"` through the string-keyed reverse dictionary. -/
theorem label_map_bijection_witness :
    ∃ i, i < (uniqueLabels ["B", "A", "B"]).length
      ∧ lookupIdx ["B", "A", "B"] "A" = some i
      ∧ lookupLabel ["B", "A", "B"] i = some "A" :=
  (label_map_bijection ["B", "A", "B"]).2.2.2.2 "A" (by simp)

/-- The `preprocessor_config` dict stored in a checkpoint (train.py,
lines 287-291). -/
structure PreprocessorConfig where
  sample_rate : ℕ
  n_mels : ℕ
  duration : ℚ
deriving DecidableEq

/-- Per-epoch result delivered by the ML runtime (train.py, lines 260-263):
the epoch's validation accuracy (percent, `100. * correct / total`) and the
model/optimizer state dicts after the epoch, abstracted as opaque tokens. -/
structure EpochStats where
  val_acc : ℚ
  model_state : ℕ
  optimizer_state : ℕ
deriving DecidableEq

/-- The checkpoint dict (train.py, lines 280-292): model weights, optimizer
state, both label maps, the preprocessing parameters, epoch and validation
accuracy. -/
structure Checkpoint where
  epoch : ℕ
  model_state_dict : ℕ
  optimizer_state_dict : ℕ
  val_acc : ℚ
  label_to_idx : List (String × ℕ)
  idx_to_label : List (String × String)
  preprocessor_config : PreprocessorConfig
deriving DecidableEq

/-- The checkpoint built at epoch `e` (train.py, lines 280-292). -/
def mkCheckpoint (labels : List String) (cfg : PreprocessorConfig)
    (es : ℕ → EpochStats) (e : ℕ) : Checkpoint :=
  { epoch := e
    model_state_dict := (es e).model_state
    optimizer_state_dict := (es e).optimizer_state
    val_acc := (es e).val_acc
    label_to_idx := label_to_idx labels
    idx_to_label := idx_to_label labels
    preprocessor_config := cfg }

/-- State of the epoch loop in `main` (train.py, lines 253-297):
`best_val_acc`, the `checkpoint` local variable (`none` while unbound), and
the sequence of checkpoints written to `best_model.pt`. -/
structure LoopState where
  best_val_acc : ℚ
  checkpoint : Option Checkpoint
  best_saves : List Checkpoint
deriving DecidableEq

/-- One iteration of the epoch loop (train.py, lines 277-294): on strict
improvement of validation accuracy over `best_val_acc` rebuild `checkpoint`
and save it to `best_model.pt`; otherwise do nothing. -/
def epochStep (labels : List String) (cfg : PreprocessorConfig) (es : ℕ → EpochStats)
    (s : LoopState) (e : ℕ) : LoopState :=
  if s.best_val_acc < (es e).val_acc then
    { best_val_acc := (es e).val_acc
      checkpoint := some (mkCheckpoint labels cfg es e)
      best_saves := s.best_saves ++ [mkCheckpoint labels cfg es e] }
  else s

/-- The epoch loop of `main` (train.py, lines 253-294), starting from
`best_val_acc = 0` and an unbound `checkpoint` variable. -/
def trainLoop (labels : List String) (cfg : PreprocessorConfig) (es : ℕ → EpochStats)
    (epochs : ℕ) : LoopState :=
  (List.range epochs).foldl (epochStep labels cfg es) ⟨0, none, []⟩

/-- The final `torch.save(checkpoint, output_dir / 'final_model.pt')`
(train.py, line 297): it writes the current value of the `checkpoint`
variable; `none` models the `NameError` raised when no epoch ever improved
and the variable was never bound, in which case no file is written. -/
def finalSave (s : LoopState) : Option Checkpoint := s.checkpoint

/-- `best_val_acc` just before epoch `n`: the running maximum of 0 and the
validation accuracies of epochs `0..n-1`. -/
def bestUpTo (es : ℕ → EpochStats) (n : ℕ) : ℚ :=
  ((List.range n).map (fun i => (es i).val_acc)).foldl max 0

/-- The two `sys.exit(1)` paths of `main` before training starts
(train.py, lines 180-202). -/
inductive TrainError
  | needTwoClasses
  | notEnoughTrainingSamples
deriving DecidableEq

/-- `val_size = max(1, int(len(dataset) * args.val_split))` (train.py, line 194). -/
def valSize (N : ℕ) (vs : ℚ) : ℕ := max 1 (pyTrunc ((N : ℚ) * vs)).toNat

/-- `train_size = len(dataset) - val_size` (train.py, line 195). -/
def trainSize (N : ℕ) (vs : ℚ) : ℕ := N - valSize N vs

/-- The control flow of `main` (train.py, lines 156-297) around the epoch
loop: reject when fewer than 2 distinct labels, reject when the training
split is smaller than the number of classes, otherwise run the loop. -/
def trainMain (labels : List String) (vs : ℚ) (cfg : PreprocessorConfig)
    (es : ℕ → EpochStats) (epochs : ℕ) : Except TrainError LoopState :=
  if (uniqueLabels labels).length < 2 then .error .needTwoClasses
  else if trainSize labels.length vs < (uniqueLabels labels).length then
    .error .notEnoughTrainingSamples
  else .ok (trainLoop labels cfg es epochs)

theorem trainLoop_succ (labels : List String) (cfg : PreprocessorConfig)
    (es : ℕ → EpochStats) (n : ℕ) :
    trainLoop labels cfg es (n + 1) =
      epochStep labels cfg es (trainLoop labels cfg es n) n := by
  unfold trainLoop
  rw [List.range_succ, List.foldl_append]
  rfl

theorem bestUpTo_succ (es : ℕ → EpochStats) (n : ℕ) :
    bestUpTo es (n + 1) = max (bestUpTo es n) ((es n).val_acc) := by
  unfold bestUpTo
  rw [List.range_succ, List.map_append, List.foldl_append]
  rfl

theorem le_foldl_max (l : List ℚ) : ∀ a : ℚ, a ≤ l.foldl max a := by
  induction l with
  | nil => intro a; simp
  | cons x t ih =>
    intro a
    calc a ≤ max a x := le_max_left a x
    _ ≤ (x :: t).foldl max a := by simpa using ih (max a x)

theorem bestUpTo_nonneg (es : ℕ → EpochStats) (n : ℕ) : 0 ≤ bestUpTo es n :=
  le_foldl_max _ 0

theorem foldl_max_of_nonpos : ∀ l : List ℚ, (∀ x ∈ l, x ≤ 0) → l.foldl max 0 = 0 := by
  intro l
  induction l with
  | nil => intro _; rfl
  | cons x t ih =>
    intro h
    have hx : max 0 x = 0 := max_eq_left (h x (List.mem_cons_self x t))
    simpa [hx] using ih (fun y hy => h y (List.mem_cons_of_mem x hy))

/-- The loop invariant of train.py, lines 253-294: `best_val_acc` is the
running maximum, `best_model.pt` is written exactly at the strictly improving
epochs, and the `checkpoint` variable holds the most recent of those saves. -/
theorem trainLoop_characterization (labels : List String) (cfg : PreprocessorConfig)
    (es : ℕ → EpochStats) : ∀ n : ℕ,
    (trainLoop labels cfg es n).best_val_acc = bestUpTo es n
    ∧ (trainLoop labels cfg es n).best_saves =
        ((List.range n).filter (fun e => decide (bestUpTo es e < (es e).val_acc))).map
          (mkCheckpoint labels cfg es)
    ∧ (trainLoop labels cfg es n).checkpoint =
        (trainLoop labels cfg es n).best_saves.getLast? := by
  intro n
  induction n with
  | zero => exact ⟨rfl, rfl, rfl⟩
  | succ m ih =>
    obtain ⟨ihb, ihs, ihc⟩ := ih
    rw [trainLoop_succ]
    unfold epochStep
    rw [ihb]
    by_cases h : bestUpTo es m < (es m).val_acc
    · rw [if_pos h]
      refine ⟨?_, ?_, ?_⟩
      · rw [bestUpTo_succ]
        exact (max_eq_right (le_of_lt h)).symm
      · rw [List.range_succ, List.filter_append, List.map_append, ← ihs]
        simp [h]
      · simp only [ihs]
        rw [List.getLast?_concat]
    · rw [if_neg h]
      refine ⟨?_, ?_, ihc⟩
      · rw [bestUpTo_succ]
        exact ihb.trans (max_eq_left (not_lt.mp h)).symm
      · rw [List.range_succ, List.filter_append, List.map_append, ihs]
        simp [h]

/-- C2 (amended): during a run, `best_model.pt` is written exactly at the
epochs whose validation accuracy strictly exceeds the best-so-far
(initialized to 0), each time with the full checkpoint of that epoch; the
end-of-run save writes the current `checkpoint` variable, i.e. the most
recent best checkpoint (the last improving epoch, not necessarily the last
epoch), and writes nothing when no epoch ever improved. -/
theorem checkpoint_saves_on_improvement (labels : List String) (cfg : PreprocessorConfig)
    (es : ℕ → EpochStats) (n : ℕ) :
    (trainLoop labels cfg es n).best_saves =
      ((List.range n).filter (fun e => decide (bestUpTo es e < (es e).val_acc))).map
        (mkCheckpoint labels cfg es)
    ∧ finalSave (trainLoop labels cfg es n) =
      (trainLoop labels cfg es n).best_saves.getLast?
    ∧ (trainLoop labels cfg es n).best_val_acc = bestUpTo es n :=
  ⟨(trainLoop_characterization labels cfg es n).2.1,
   (trainLoop_characterization labels cfg es n).2.2,
   (trainLoop_characterization labels cfg es n).1⟩

/-- A preprocessing configuration for concrete runs. -/
def demoConfig : PreprocessorConfig := { sample_rate := 16000, n_mels := 40, duration := 1 }

/-- A run whose validation accuracy is 60% at epoch 0 and 50% at epoch 1:
epoch 0 is the best, epoch 1 is the last. -/
def demoStats : ℕ → EpochStats :=
  fun e => if e = 0 then ⟨60, 10, 20⟩ else ⟨50, 11, 21⟩

/-- A run whose validation accuracy is 0% at every epoch. -/
def zeroStats : ℕ → EpochStats := fun _ => ⟨0, 0, 0⟩

/-- Counterexample to C2 as stated: in a 2-epoch run with accuracies 60%
then 50%, the end-of-run `final_model.pt` holds the checkpoint of epoch 0,
not one reflecting the last epoch 1. -/
theorem final_save_not_last_epoch :
    (finalSave (trainLoop ["A", "B"] demoConfig demoStats 2)).map Checkpoint.epoch = some 0
    ∧ (0 : ℕ) ≠ 1 := by
  constructor
  · have h01 : ((0 : ℚ) < 60) := by norm_num
    have h2 : ¬((60 : ℚ) < 50) := by norm_num
    simp only [trainLoop, List.range_succ, List.range_zero, List.nil_append,
      List.singleton_append, List.foldl_cons, List.foldl_nil, epochStep, demoStats,
      finalSave]
    norm_num [mkCheckpoint]
  · decide

theorem no_improvement_nonpos (es : ℕ → EpochStats) (n : ℕ)
    (h : ∀ e, e < n → ¬ bestUpTo es e < (es e).val_acc) :
    ∀ e, e < n → (es e).val_acc ≤ 0 := by
  intro e
  induction e using Nat.strong_induction_on with
  | _ e ih =>
    intro he
    have hb : bestUpTo es e = 0 := by
      apply foldl_max_of_nonpos
      intro x hx
      obtain ⟨i, hi, rfl⟩ := List.mem_map.mp hx
      exact ih i (List.mem_range.mp hi) (lt_trans (List.mem_range.mp hi) he)
    have := h e he
    rw [hb] at this
    exact not_lt.mp this

/-- C10: the end-of-run save writes nothing (the `checkpoint` variable is
unbound and the save raises `NameError`) precisely when no epoch strictly
improved on the initial best of 0 — equivalently, when every epoch's
validation accuracy is ≤ 0 (in particular all-zero runs and 0-epoch runs);
a final model exists only when some epoch strictly improved. -/
theorem final_save_requires_improvement (labels : List String) (cfg : PreprocessorConfig)
    (es : ℕ → EpochStats) (n : ℕ) :
    (finalSave (trainLoop labels cfg es n) = none
      ↔ ∀ e, e < n → ¬ bestUpTo es e < (es e).val_acc)
    ∧ (finalSave (trainLoop labels cfg es n) = none
      ↔ ∀ e, e < n → (es e).val_acc ≤ 0) := by
  obtain ⟨hb, hs, hc⟩ := trainLoop_characterization labels cfg es n
  have hnone : finalSave (trainLoop labels cfg es n) = none
      ↔ ∀ e, e < n → ¬ bestUpTo es e < (es e).val_acc := by
    rw [finalSave, hc, List.getLast?_eq_none_iff, hs, List.map_eq_nil_iff,
      List.filter_eq_nil_iff]
    constructor
    · intro h e he
      simpa using h e (List.mem_range.mpr he)
    · intro h e he
      simpa using h e (List.mem_range.mp he)
  refine ⟨hnone, hnone.trans ⟨fun h e he => no_improvement_nonpos es n h e he, ?_⟩⟩
  intro h e he hlt
  have : (es e).val_acc ≤ bestUpTo es e := (h e he).trans (bestUpTo_nonneg es e)
  exact absurd hlt (not_lt.mpr this)

/-- Instance of `final_save_requires_improvement`: a 3-epoch run with 0%
validation accuracy throughout binds no checkpoint, so the final save fails
and no `final_model.pt` is written. -/
theorem final_save_requires_improvement_witness :
    finalSave (trainLoop ["A", "B"] demoConfig zeroStats 3) = none :=
  (final_save_requires_improvement ["A", "B"] demoConfig zeroStats 3).2.mpr
    (fun _ _ => by norm_num [zeroStats])

theorem uniqueLabels_singleA : uniqueLabels ["A", "A", "A"] = ["A"] := by
  unfold uniqueLabels
  rw [show List.dedup ["A", "A", "A"] = ["A"] from by
    simp [List.dedup_cons_of_mem, List.dedup_cons_of_not_mem]]
  simp

theorem uniqueLabels_AABBB : uniqueLabels ["A", "A", "B", "B", "B"] = ["A", "B"] := by
  unfold uniqueLabels
  rw [show List.dedup ["A", "A", "B", "B", "B"] = ["A", "B"] from by
    simp [List.dedup_cons_of_mem, List.dedup_cons_of_not_mem]]
  exact List.mergeSort_of_sorted (by simp; decide)

/-- C5: a manifest with fewer than 2 distinct labels is rejected by the
training entrypoint with the need-at-least-2-classes error (`sys.exit(1)`,
train.py lines 180-186) before any epoch executes. -/
theorem train_rejects_single_class (labels : List String) (vs : ℚ)
    (cfg : PreprocessorConfig) (es : ℕ → EpochStats) (epochs : ℕ)
    (h : (uniqueLabels labels).length < 2) :
    trainMain labels vs cfg es epochs = .error .needTwoClasses := by
  unfold trainMain
  rw [if_pos h]

/-- Instance of `train_rejects_single_class` on the manifest
`["A", "A", "A"]` of the spec's scenario. -/
theorem train_rejects_single_class_witness :
    trainMain ["A", "A", "A"] (1 / 5) demoConfig zeroStats 50 = .error .needTwoClasses :=
  train_rejects_single_class ["A", "A", "A"] (1 / 5) demoConfig zeroStats 50
    (by rw [uniqueLabels_singleA]; norm_num)

/-- C6 (amended): the split computes
`val_size = max(1, floor(N * val_split))` and `train_size = N - val_size`;
provided the manifest has at least 2 distinct labels, the run aborts before
training exactly when `train_size < num_classes` (with fewer than 2 distinct
labels it aborts earlier with the need-at-least-2-classes error). -/
theorem split_policy (labels : List String) (vs : ℚ) (cfg : PreprocessorConfig)
    (es : ℕ → EpochStats) (epochs : ℕ) (hvs : 0 ≤ vs)
    (hK : 2 ≤ (uniqueLabels labels).length) :
    valSize labels.length vs = max 1 (⌊(labels.length : ℚ) * vs⌋).toNat
    ∧ trainSize labels.length vs = labels.length - valSize labels.length vs
    ∧ (trainMain labels vs cfg es epochs = .error .notEnoughTrainingSamples
        ↔ trainSize labels.length vs < (uniqueLabels labels).length)
    ∧ (trainMain labels vs cfg es epochs = .ok (trainLoop labels cfg es epochs)
        ↔ ¬ trainSize labels.length vs < (uniqueLabels labels).length) := by
  have hval : valSize labels.length vs = max 1 (⌊(labels.length : ℚ) * vs⌋).toNat := by
    unfold valSize pyTrunc
    rw [if_neg (not_lt.mpr (mul_nonneg (Nat.cast_nonneg _) hvs))]
  refine ⟨hval, rfl, ?_, ?_⟩ <;>
    · unfold trainMain
      rw [if_neg (by omega)]
      by_cases hsplit : trainSize labels.length vs < (uniqueLabels labels).length
      · rw [if_pos hsplit]
        simp [hsplit]
      · rw [if_neg hsplit]
        simp [hsplit]

/-- Instance of `split_policy` on the spec's scenario: manifest labels
`["A", "A", "B", "B", "B"]` with `val_split = 0.2` give validation size 1 and
training size 4 ≥ 2 classes, and training proceeds. -/
theorem split_policy_witness :
    valSize 5 (1 / 5) = 1 ∧ trainSize 5 (1 / 5) = 4
    ∧ trainMain ["A", "A", "B", "B", "B"] (1 / 5) demoConfig zeroStats 50
        = .ok (trainLoop ["A", "A", "B", "B", "B"] demoConfig zeroStats 50) := by
  have h := split_policy ["A", "A", "B", "B", "B"] (1 / 5) demoConfig zeroStats 50
    (by norm_num) (by rw [uniqueLabels_AABBB]; norm_num)
  have hlen : (["A", "A", "B", "B", "B"] : List String).length = 5 := by simp
  rw [hlen] at h
  have hval : valSize 5 (1 / 5) = 1 := by
    rw [h.1]
    norm_num
  have htrain : trainSize 5 (1 / 5) = 4 := by
    rw [h.2.1, hval]
  refine ⟨hval, htrain, ?_⟩
  apply h.2.2.2.mpr
  rw [htrain, uniqueLabels_AABBB]
  norm_num

/-- Counterexample to C6 as stated: on the single-label manifest
`["A", "A", "A"]` with `val_split = 0.2`, the training size 2 is not smaller
than the number of classes 1, yet the run still aborts before training
(with the earlier need-at-least-2-classes error). -/
theorem abort_without_small_split :
    trainMain ["A", "A", "A"] (1 / 5) demoConfig zeroStats 50 = .error .needTwoClasses
    ∧ ¬ trainSize 3 (1 / 5) < (uniqueLabels ["A", "A", "A"]).length := by
  constructor
  · unfold trainMain
    rw [if_pos (by rw [uniqueLabels_singleA]; norm_num)]
  · rw [uniqueLabels_singleA]
    have : trainSize 3 (1 / 5) = 2 := by
      unfold trainSize valSize pyTrunc
      norm_num
    rw [this]
    norm_num

/-- Modelled from the spec: `F.softmax(logits, dim=1)` in
`KeywordSpottingCNN.predict` / `LightweightCNN.predict` (model.py, lines
115-127 and 178-181) is computed by the external ML runtime.  The softmax
`exp x / Σ exp` is embedded with the exponential abstracted as a parameter
`e`; every theorem holds for any strictly positive `e`, in particular the
real exponential. -/
def softmax (e : ℚ → ℚ) (logits : List ℚ) : List ℚ :=
  logits.map (fun x => e x / (logits.map e).sum)

/-- `np.argsort(probs)` (predict.py, line 85): the indices `0..len-1` sorted
by ascending probability; `mergeSort` mirrors numpy's stable sort. -/
def argsortAsc (probs : List ℚ) : List ℕ :=
  (List.range probs.length).mergeSort (fun i j => decide (probs.getD i 0 ≤ probs.getD j 0))

/-- `np.argsort(probs)[::-1][:top_k]` (predict.py, line 85). -/
def topIndices (probs : List ℚ) (top_k : ℕ) : List ℕ :=
  (argsortAsc probs).reverse.take top_k

/-- `KeywordPredictor.predict` (predict.py, lines 63-93) after the model has
produced the probability vector `probs`: pair each top index with
`idx_to_label[str(idx)]` and its confidence `probs[idx]`.  (The `.getD ""`
default is unreachable when `probs` has one entry per class, as the loaded
checkpoint guarantees.) -/
def KeywordPredictor.predict (labels : List String) (probs : List ℚ)
    (top_k : ℕ) : List (String × ℚ) :=
  (topIndices probs top_k).map (fun i => ((lookupLabel labels i).getD "", probs.getD i 0))

theorem sum_map_div (l : List ℚ) (c : ℚ) : (l.map (fun x => x / c)).sum = l.sum / c := by
  induction l with
  | nil => simp
  | cons x t ih => simp [ih, add_div]

/-- C3: for every audio input (entering the pipeline as the model's logits)
and every `top_k`, `KeywordPredictor.predict` returns `min(top_k,
num_classes)` pairs `(label, confidence)` sorted by descending confidence;
every returned confidence lies in `[0, 1]`, and the full softmax output is
non-negative and sums to 1. -/
theorem predict_top_k_spec (e : ℚ → ℚ) (logits : List ℚ) (labels : List String)
    (top_k : ℕ) (hpos : ∀ x : ℚ, 0 < e x) (hne : logits ≠ [])
    (hlen : logits.length = (uniqueLabels labels).length) :
    (softmax e logits).sum = 1
    ∧ (∀ q ∈ softmax e logits, 0 ≤ q ∧ q ≤ 1)
    ∧ (KeywordPredictor.predict labels (softmax e logits) top_k).length
        = min top_k (uniqueLabels labels).length
    ∧ ((KeywordPredictor.predict labels (softmax e logits) top_k).map Prod.snd).Pairwise
        (fun a b => b ≤ a)
    ∧ (∀ pr ∈ KeywordPredictor.predict labels (softmax e logits) top_k,
        0 ≤ pr.2 ∧ pr.2 ≤ 1) := by
  set S : ℚ := (logits.map e).sum with hS
  have hmapne : logits.map e ≠ [] := by
    intro h
    exact hne (List.map_eq_nil_iff.mp h)
  have hSpos : 0 < S := List.sum_pos _ (fun x hx => by
    obtain ⟨y, _, rfl⟩ := List.mem_map.mp hx
    exact hpos y) hmapne
  have hsum : (softmax e logits).sum = 1 := by
    have hrw : softmax e logits = (logits.map e).map (fun y => y / S) := by
      rw [softmax, List.map_map]
      rfl
    rw [hrw, sum_map_div, ← hS, div_self (ne_of_gt hSpos)]
  have hbound : ∀ q ∈ softmax e logits, 0 ≤ q ∧ q ≤ 1 := by
    intro q hq
    obtain ⟨x, hx, rfl⟩ := List.mem_map.mp hq
    constructor
    · exact le_of_lt (div_pos (hpos x) hSpos)
    · rw [div_le_one hSpos]
      exact List.single_le_sum (fun y hy => by
        obtain ⟨z, _, rfl⟩ := List.mem_map.mp hy
        exact le_of_lt (hpos z)) _ (List.mem_map_of_mem e hx)
  have hplen : (softmax e logits).length = (uniqueLabels labels).length := by
    rw [softmax, List.length_map, hlen]
  refine ⟨hsum, hbound, ?_, ?_, ?_⟩
  · rw [KeywordPredictor.predict, List.length_map, topIndices, List.length_take,
      List.length_reverse, argsortAsc, List.length_mergeSort, List.length_range, hplen]
  · set probs : List ℚ := softmax e logits with hprobs
    have hsorted : (argsortAsc probs).Pairwise
        (fun i j => probs.getD i 0 ≤ probs.getD j 0) := by
      have h := @List.sorted_mergeSort ℕ (fun i j => decide (probs.getD i 0 ≤ probs.getD j 0))
        (fun a b c hab hbc => by
          simp only [decide_eq_true_eq] at *
          exact le_trans hab hbc)
        (fun a b => by
          simpa [Bool.or_eq_true, decide_eq_true_eq] using le_total (probs.getD a 0)
            (probs.getD b 0))
        (List.range probs.length)
      exact h.imp (fun hd => of_decide_eq_true hd)
    have hrev : (argsortAsc probs).reverse.Pairwise
        (fun i j => probs.getD j 0 ≤ probs.getD i 0) :=
      List.pairwise_reverse.mpr hsorted
    have htake : (topIndices probs top_k).Pairwise
        (fun i j => probs.getD j 0 ≤ probs.getD i 0) :=
      List.Pairwise.sublist (List.take_sublist top_k _) hrev
    rw [KeywordPredictor.predict, List.map_map]
    exact List.pairwise_map.mpr htake
  · intro pr hpr
    rw [KeywordPredictor.predict] at hpr
    obtain ⟨i, hi, rfl⟩ := List.mem_map.mp hpr
    have himem : i ∈ argsortAsc (softmax e logits) := by
      have h1 : i ∈ (argsortAsc (softmax e logits)).reverse :=
        (List.take_sublist top_k _).mem hi
      exact List.mem_reverse.mp h1
    have hirange : i < (softmax e logits).length := by
      have := List.mem_mergeSort.mp himem
      exact List.mem_range.mp this
    have hmem : (softmax e logits).getD i 0 ∈ softmax e logits := by
      rw [List.getD_eq_getElem _ _ hirange]
      exact List.getElem_mem hirange
    exact hbound _ hmem

theorem uniqueLabels_abc : uniqueLabels ["a", "b", "c"] = ["a", "b", "c"] := by
  unfold uniqueLabels
  rw [show List.dedup ["a", "b", "c"] = ["a", "b", "c"] from by
    simp [List.dedup_cons_of_mem, List.dedup_cons_of_not_mem]]
  exact List.mergeSort_of_sorted (by simp; decide)

/-- Instance of `predict_top_k_spec` with three classes, uniform logits and
`top_k = 2`: the softmax sums to 1 and the prediction list has
`min(2, 3) = 2` entries. -/
theorem predict_top_k_spec_witness :
    (softmax (fun _ => 1) [0, 0, 0]).sum = 1
    ∧ (KeywordPredictor.predict ["a", "b", "c"] (softmax (fun _ => 1) [0, 0, 0]) 2).length
        = min 2 3 := by
  have h := predict_top_k_spec (fun _ => 1) [0, 0, 0] ["a", "b", "c"] 2
    (fun _ => one_pos) (by simp) (by rw [uniqueLabels_abc]; rfl)
  refine ⟨h.1, ?_⟩
  rw [h.2.2.1, uniqueLabels_abc]
  rfl

/-- A row of the manifest CSV (train.py, lines 54-67): the audio filename and
the word label. -/
structure ManifestRow where
  filename : String
  label : String
deriving DecidableEq

/-- `KeywordDataset.__getitem__` (train.py, lines 53-69): preprocess the row's
audio file and return the spectrogram together with the label index.  The
dataset's `augment` flag (stored by `__init__`, line 39) is carried as an
argument and — exactly as in the source — never consulted: `augment_audio`
(preprocessing.py, lines 151-185) is never invoked anywhere in the dataset. -/
def KeywordDataset.getItem (p : AudioPreprocessor) (cell : ℕ → ℕ → List ℚ → ℚ)
    (labels : List String) (augment : Bool) (audioOf : String → List ℚ)
    (row : ManifestRow) : List (List ℚ) × Option ℕ :=
  (p.preprocess cell (audioOf row.filename), lookupIdx labels row.label)

/-- C8 (code divergence): every training item is identical whether or not
augmentation is enabled — the `augment` flag is stored but never read by
`__getitem__`, so no item's waveform is ever time-stretched, pitch-shifted or
noised, contrary to the documented augmentation pipeline. -/
theorem dataset_item_ignores_augment (p : AudioPreprocessor)
    (cell : ℕ → ℕ → List ℚ → ℚ) (labels : List String) (audioOf : String → List ℚ)
    (row : ManifestRow) :
    KeywordDataset.getItem p cell labels true audioOf row
      = KeywordDataset.getItem p cell labels false audioOf row := rfl

/-- The process-wide `TRAINING_STATUS` record (api.py, lines 24-33). -/
structure TrainingStatus where
  is_training : Bool
  status : String
  progress : ℕ
  message : String
  started_at : Option String
  completed_at : Option String
  accuracy : Option ℚ
  error : Option String
deriving DecidableEq

/-- Response of the `/train` endpoint (api.py, lines 101-145): HTTP 400 with
an error message, or the success acknowledgment after spawning the job. -/
inductive TrainResponse where
  | conflict (error : String)
  | started
deriving DecidableEq

/-- The `/train` handler (api.py, lines 88-145): reject while a job is in
flight; otherwise reset the status record, mark it in flight and spawn the
background job. -/
def trainEndpoint (s : TrainingStatus) (now : String) : TrainResponse × TrainingStatus :=
  if s.is_training then (.conflict ("Training already in progress"), s)
  else
    (.started,
      { is_training := true
        status := "starting"
        progress := 0
        message := "Initializing training..."
        started_at := some now
        completed_at := none
        accuracy := none
        error := none })

/-- How the monitored training subprocess ends (api.py, lines 174-220): an
exit code, or an exception raised inside the `try` block. -/
inductive ProcessResult where
  | exitCode (code : ℤ)
  | raised (msg : String)
deriving DecidableEq

/-- `run_training` (api.py, lines 148-230): the `try/except/finally` around
the training subprocess.  `acc` is the accuracy parsed from the output stream
while monitoring and `now` the completion timestamp.  A non-zero exit code
raises, the `except` clause records the failure, and the `finally` clause
clears `is_training` on every path. -/
def run_training (s : TrainingStatus) (r : ProcessResult) (now : String)
    (acc : Option ℚ) : TrainingStatus :=
  let s1 := { s with
    status := "training"
    message := "Training model..."
    accuracy := acc }
  let s2 :=
    match r with
    | .exitCode c =>
        if c = 0 then
          { s1 with
            status := "completed"
            progress := 100
            message := "Training completed successfully"
            completed_at := some now }
        else
          { s1 with
            status := "failed"
            error := some ("Training process failed with code " ++ toString c)
            message := ("Training failed: Training process failed with code " ++ toString c) }
    | .raised m =>
        { s1 with
          status := "failed"
          error := some m
          message := ("Training failed: " ++ m) }
  { s2 with is_training := false }

/-- C9: at most one training job is in flight: a `/train` request while
`is_training` holds is rejected with the explicit conflict error and leaves
the record unchanged (nothing is queued); a request while idle marks the
record in flight; and `run_training` clears `is_training` when the job
terminates, on both the completion path and every failure path. -/
theorem single_training_job (s : TrainingStatus) (now : String) (r : ProcessResult)
    (acc : Option ℚ) (m : String) :
    (s.is_training = true →
      trainEndpoint s now = (.conflict ("Training already in progress"), s))
    ∧ (s.is_training = false → ((trainEndpoint s now).1 = .started
        ∧ ((trainEndpoint s now).2).is_training = true))
    ∧ (run_training s r now acc).is_training = false
    ∧ (run_training s (.exitCode 0) now acc).status = "completed"
    ∧ (run_training s (.raised m) now acc).status = "failed" := by
  refine ⟨?_, ?_, ?_, ?_, ?_⟩
  · intro h
    simp [trainEndpoint, h]
  · intro h
    simp [trainEndpoint, h]
  · cases r with
    | exitCode c => by_cases hc : c = 0 <;> simp [run_training, hc]
    | raised m2 => simp [run_training]
  · simp [run_training]
  · simp [run_training]

/-- A status record with a job in flight. -/
def busyStatus : TrainingStatus :=
  { is_training := true, status := "training", progress := 50, message := "Epoch 5/10",
    started_at := some "t0", completed_at := none, accuracy := none, error := none }

/-- The idle status record (api.py, lines 24-33). -/
def idleStatus : TrainingStatus :=
  { is_training := false, status := "idle", progress := 0, message := "",
    started_at := none, completed_at := none, accuracy := none, error := none }

/-- Instance of `single_training_job`: a request during `busyStatus` is
rejected unchanged, a request during `idleStatus` starts the job, and a
finished job has `is_training` cleared. -/
theorem single_training_job_witness :
    trainEndpoint busyStatus "t1" = (.conflict ("Training already in progress"), busyStatus)
    ∧ (trainEndpoint idleStatus "t1").1 = TrainResponse.started
    ∧ (run_training idleStatus (.raised ("boom")) "t1" none).is_training = false := by
  have hb := single_training_job busyStatus "t1" (.exitCode 0) none "boom"
  have hi := single_training_job idleStatus "t1" (.raised ("boom")) none "boom"
  exact ⟨hb.1 rfl, (hi.2.1 rfl).1, hi.2.2.1⟩
